import Mathlib

/-
  Verification development for the nestor repository.

  Shallow embedding of:
    - nestor/scheduling.py   (parse_schedules, CronManager.get_next_execution)
    - nestor/trello.py       (Trello cache, board/list lookup, card creation)
    - nestor/rule_parser.py  (Trigger, Rule, AddCardExecution)
-/

namespace Nestor

/-! ## Rule model (nestor/rule_parser.py)

TriggerType is the Enum with the single member SCHEDULED.  A Trigger stores
the cron expression given in the rule definition.  In the Python source the
expression is stored in the private attribute named with a leading underscore
and the class exposes only a property for the trigger type; scheduling.py
nevertheless reads a public cron_expr attribute, which raises AttributeError
at runtime.  The embedding models the stored expression as the field
cron_expr (the clear intent); the accessor slip is reported with claim C1. -/

inductive TriggerType where
  | SCHEDULED
deriving DecidableEq

structure Trigger where
  type : TriggerType
  cron_expr : String
deriving DecidableEq

/-- Rule from rule_parser.py: one trigger plus an ordered action sequence.
The actions are opaque payload for the scheduler, modelled as strings. -/
structure Rule where
  trigger : Trigger
  actions : List String
deriving DecidableEq

/-! ## Scheduling (nestor/scheduling.py)

parse_schedules builds a dict keyed by one croniter object per scheduled
rule; since each croniter is a distinct object and hence a distinct key, the
dict is in bijection with the filtered rule list (insertion order
preserved).  The next-fire instant a croniter produces is a function of the
cron expression and the base time datetime.now(); it is modelled by an
explicit parameter nextFire : String -> Int -> Int applied to
(cron_expr, now). -/

def parse_schedules (rules : List Rule) : List Rule :=
  rules.filter (fun r => decide (r.trigger.type = TriggerType.SCHEDULED))

/-- One step of the defaultdict(list) grouping in get_next_execution:
next_executions[time].append(rule).  The rule is appended to the entry of
its key if one exists (keys are kept in first-occurrence order), otherwise
a new entry is appended at the end. -/
def insertGroup (t : Int) (r : Rule) : List (Int × List Rule) → List (Int × List Rule)
  | [] => [(t, [r])]
  | (k, rs) :: rest =>
    if k = t then (k, rs ++ [r]) :: rest
    else (k, rs) :: insertGroup t r rest

/-- The defaultdict(list) grouping loop of get_next_execution:
for cron, rule in cron_to_rule.items(): next_executions[...].append(rule). -/
def groupByTime (f : Rule → Int) (l : List Rule) : List (Int × List Rule) :=
  l.foldl (fun acc r => insertGroup (f r) r acc) []

/-- Python's min over next_executions.items(): the keys are pairwise
distinct, so tuple comparison reduces to comparison of the instants and the
leftmost minimal entry is returned. -/
def minEntry : List (Int × List Rule) → Option (Int × List Rule)
  | [] => none
  | e :: es => some (es.foldl (fun best x => if x.1 < best.1 then x else best) e)

/-- CronManager.get_next_execution, scheduling.py lines 24-33.  Returns None
when no scheduled rule exists; otherwise groups the scheduled rules by their
next fire instant and returns the minimal entry. -/
def get_next_execution (nextFire : String → Int → Int) (now : Int) (rules : List Rule) :
    Option (Int × List Rule) :=
  if (parse_schedules rules).isEmpty then none
  else minEntry (groupByTime (fun r => nextFire r.trigger.cron_expr now) (parse_schedules rules))

/-! ### Scheduling lemmas -/

lemma parse_schedules_eq_self (rules : List Rule) : parse_schedules rules = rules := by
  unfold parse_schedules
  apply List.filter_eq_self.mpr
  intro a _
  cases h : a.trigger.type
  simp

/-- Effect of one grouping step on the entry contents and on the key list. -/
lemma insertGroup_spec (f : Rule → Int) (r : Rule) (done : List Rule) :
    ∀ (acc : List (Int × List Rule)),
      (∀ p ∈ acc, p.2 = done.filter (fun x => decide (f x = p.1))) →
      (acc.map Prod.fst).Nodup →
      (f r ∉ acc.map Prod.fst → ∀ x ∈ done, f x ≠ f r) →
      (∀ p ∈ insertGroup (f r) r acc,
          p.2 = (done ++ [r]).filter (fun x => decide (f x = p.1))) ∧
      (insertGroup (f r) r acc).map Prod.fst =
        (if f r ∈ acc.map Prod.fst then acc.map Prod.fst
         else acc.map Prod.fst ++ [f r]) := by
  intro acc
  induction acc with
  | nil =>
    intro _ _ hcov
    constructor
    · intro p hp
      simp only [insertGroup, List.mem_singleton] at hp
      subst hp
      have hfil : done.filter (fun x => decide (f x = f r)) = [] := by
        apply List.filter_eq_nil_iff.mpr
        intro a ha
        simpa using hcov (by simp) a ha
      simp [List.filter_append, hfil]
    · simp [insertGroup]
  | cons hd rest ih =>
    intro hcont hnd hcov
    obtain ⟨k, rs⟩ := hd
    have hnd' : (rest.map Prod.fst).Nodup := (List.nodup_cons.mp (by simpa using hnd)).2
    have hknotin : k ∉ rest.map Prod.fst := (List.nodup_cons.mp (by simpa using hnd)).1
    by_cases hk : k = f r
    · subst hk
      have hins : insertGroup (f r) r ((f r, rs) :: rest) = (f r, rs ++ [r]) :: rest := by
        simp [insertGroup]
      constructor
      · intro p hp
        rw [hins] at hp
        rcases List.mem_cons.mp hp with hp | hp
        · subst hp
          have h1 : rs = done.filter (fun x => decide (f x = f r)) :=
            hcont (f r, rs) (List.mem_cons_self _ _)
          simp only [List.filter_append]
          rw [← h1]
          simp
        · have h1 : p.2 = done.filter (fun x => decide (f x = p.1)) :=
            hcont p (List.mem_cons_of_mem _ hp)
          have hne : p.1 ≠ f r := by
            intro he
            exact hknotin (he ▸ List.mem_map_of_mem Prod.fst hp)
          simp only [List.filter_append]
          rw [← h1]
          have hdec : decide (f r = p.1) = false := by
            simp only [decide_eq_false_iff_not]
            intro he
            exact hne he.symm
          simp [hdec]
      · rw [hins]
        simp
    · have hins : insertGroup (f r) r ((k, rs) :: rest) =
          (k, rs) :: insertGroup (f r) r rest := by
        have hk2 : ¬ (k = f r) := hk
        simp [insertGroup, hk2]
      have hcov' : f r ∉ rest.map Prod.fst → ∀ x ∈ done, f x ≠ f r := by
        intro hnm
        apply hcov
        intro hmem
        have hmem' : f r = k ∨ f r ∈ rest.map Prod.fst := by
          simpa only [List.map_cons, List.mem_cons] using hmem
        rcases hmem' with h | h
        · exact hk h.symm
        · exact hnm h
      have ihr := ih (fun p hp => hcont p (List.mem_cons_of_mem _ hp)) hnd' hcov'
      constructor
      · intro p hp
        rw [hins] at hp
        rcases List.mem_cons.mp hp with hp | hp
        · subst hp
          have h1 : rs = done.filter (fun x => decide (f x = k)) :=
            hcont (k, rs) (List.mem_cons_self _ _)
          simp only [List.filter_append]
          rw [← h1]
          have hdec : decide (f r = k) = false := by
            simp only [decide_eq_false_iff_not]
            intro he
            exact hk he.symm
          simp [hdec]
        · exact ihr.1 p hp
      · rw [hins]
        have hmemiff : f r ∈ (((k, rs) :: rest).map Prod.fst) ↔ f r ∈ rest.map Prod.fst := by
          simp only [List.map_cons, List.mem_cons]
          constructor
          · intro h
            rcases h with h | h
            · exact absurd h.symm hk
            · exact h
          · intro h
            exact Or.inr h
        by_cases hm : f r ∈ rest.map Prod.fst
        · rw [if_pos (hmemiff.mpr hm)]
          simp only [List.map_cons]
          rw [ihr.2, if_pos hm]
        · rw [if_neg (fun h => hm (hmemiff.mp h))]
          simp only [List.map_cons]
          rw [ihr.2, if_neg hm]
          simp

/-- Invariant of the whole grouping fold: every entry of the result holds
exactly the processed rules mapping to its key (in order), the keys are
pairwise distinct, every key is attained, and every processed rule has an
entry. -/
lemma groupFold_spec (f : Rule → Int) :
    ∀ (l : List Rule) (acc : List (Int × List Rule)) (done : List Rule),
      (∀ p ∈ acc, p.2 = done.filter (fun x => decide (f x = p.1))) →
      (acc.map Prod.fst).Nodup →
      (∀ k ∈ acc.map Prod.fst, ∃ x ∈ done, f x = k) →
      (∀ x ∈ done, f x ∈ acc.map Prod.fst) →
      (∀ p ∈ l.foldl (fun a r => insertGroup (f r) r a) acc,
          p.2 = (done ++ l).filter (fun x => decide (f x = p.1))) ∧
      ((l.foldl (fun a r => insertGroup (f r) r a) acc).map Prod.fst).Nodup ∧
      (∀ k ∈ (l.foldl (fun a r => insertGroup (f r) r a) acc).map Prod.fst,
          ∃ x ∈ done ++ l, f x = k) ∧
      (∀ x ∈ done ++ l,
          f x ∈ (l.foldl (fun a r => insertGroup (f r) r a) acc).map Prod.fst)
  | [], acc, done, h1, h2, h3, h4 => by
    simp only [List.foldl_nil, List.append_nil]
    exact ⟨h1, h2, h3, h4⟩
  | r :: l, acc, done, h1, h2, h3, h4 => by
    have hcov : f r ∉ acc.map Prod.fst → ∀ x ∈ done, f x ≠ f r := by
      intro hnm x hx he
      exact hnm (he ▸ h4 x hx)
    have hins := insertGroup_spec f r done acc h1 h2 hcov
    have h2' : ((insertGroup (f r) r acc).map Prod.fst).Nodup := by
      rw [hins.2]
      by_cases hm : f r ∈ acc.map Prod.fst
      · rwa [if_pos hm]
      · rw [if_neg hm]
        simp [List.nodup_append, h2, hm]
    have h3' : ∀ k ∈ (insertGroup (f r) r acc).map Prod.fst, ∃ x ∈ done ++ [r], f x = k := by
      intro k hk
      rw [hins.2] at hk
      by_cases hm : f r ∈ acc.map Prod.fst
      · rw [if_pos hm] at hk
        obtain ⟨x, hx, hfx⟩ := h3 k hk
        exact ⟨x, List.mem_append_left _ hx, hfx⟩
      · rw [if_neg hm] at hk
        rcases List.mem_append.mp hk with hk | hk
        · obtain ⟨x, hx, hfx⟩ := h3 k hk
          exact ⟨x, List.mem_append_left _ hx, hfx⟩
        · refine ⟨r, List.mem_append_right _ (List.mem_singleton_self r), ?_⟩
          exact (List.mem_singleton.mp hk).symm
    have h4' : ∀ x ∈ done ++ [r], f x ∈ (insertGroup (f r) r acc).map Prod.fst := by
      intro x hx
      have hsub : f x ∈ acc.map Prod.fst ∨ f x = f r := by
        rcases List.mem_append.mp hx with hx | hx
        · exact Or.inl (h4 x hx)
        · right
          rw [List.mem_singleton.mp hx]
      rw [hins.2]
      by_cases hm : f r ∈ acc.map Prod.fst
      · rw [if_pos hm]
        rcases hsub with h | h
        · exact h
        · rw [h]; exact hm
      · rw [if_neg hm]
        rcases hsub with h | h
        · exact List.mem_append_left _ h
        · exact List.mem_append_right _ (by simp [h])
    have ih := groupFold_spec f l (insertGroup (f r) r acc) (done ++ [r])
      hins.1 h2' h3' h4'
    have harr : done ++ [r] ++ l = done ++ r :: l := by simp
    rw [harr] at ih
    simpa only [List.foldl_cons] using ih

/-- Python min over a non-empty entry list: the result is an entry of the
list and its key is a lower bound on every key. -/
lemma minEntry_spec (es : List (Int × List Rule)) :
    ∀ (e : Int × List Rule),
      (es.foldl (fun best x => if x.1 < best.1 then x else best) e) ∈ e :: es ∧
      ∀ p ∈ e :: es,
        (es.foldl (fun best x => if x.1 < best.1 then x else best) e).1 ≤ p.1 := by
  induction es with
  | nil =>
    intro e
    constructor
    · simp
    · intro p hp
      simp only [List.mem_singleton] at hp
      subst hp
      exact le_refl _
  | cons x es ih =>
    intro e
    have ihx := ih (if x.1 < e.1 then x else e)
    have hite_le_e : (if x.1 < e.1 then x else e).1 ≤ e.1 := by
      by_cases hx : x.1 < e.1
      · rw [if_pos hx]
        exact le_of_lt hx
      · rw [if_neg hx]
    have hite_le_x : (if x.1 < e.1 then x else e).1 ≤ x.1 := by
      by_cases hx : x.1 < e.1
      · rw [if_pos hx]
      · rw [if_neg hx]
        exact le_of_not_lt hx
    simp only [List.foldl_cons]
    constructor
    · rcases List.mem_cons.mp ihx.1 with h | h
      · rw [h]
        by_cases hx : x.1 < e.1
        · simp only [if_pos hx]
          exact List.mem_cons_of_mem _ (List.mem_cons_self _ _)
        · simp only [if_neg hx]
          exact List.mem_cons_self _ _
      · exact List.mem_cons_of_mem _ (List.mem_cons_of_mem _ h)
    · intro p hp
      have hle_ite : (es.foldl (fun best x => if x.1 < best.1 then x else best)
          (if x.1 < e.1 then x else e)).1 ≤ (if x.1 < e.1 then x else e).1 :=
        ihx.2 _ (List.mem_cons_self _ _)
      rcases List.mem_cons.mp hp with hp | hp
      · subst hp
        exact le_trans hle_ite hite_le_e
      · rcases List.mem_cons.mp hp with hp | hp
        · subst hp
          exact le_trans hle_ite hite_le_x
        · exact ihx.2 p (List.mem_cons_of_mem _ hp)

lemma groupByTime_spec (f : Rule → Int) (l : List Rule) :
    (∀ p ∈ groupByTime f l, p.2 = l.filter (fun x => decide (f x = p.1))) ∧
    ((groupByTime f l).map Prod.fst).Nodup ∧
    (∀ k ∈ (groupByTime f l).map Prod.fst, ∃ x ∈ l, f x = k) ∧
    (∀ x ∈ l, f x ∈ (groupByTime f l).map Prod.fst) := by
  have h := groupFold_spec f l [] []
    (by intro p hp; simp at hp) (by simp) (by intro k hk; simp at hk) (by intro x hx; simp at hx)
  simpa [groupByTime] using h

lemma groupByTime_ne_nil (f : Rule → Int) (r0 : Rule) (l : List Rule) :
    groupByTime f (r0 :: l) ≠ [] := by
  have h := (groupByTime_spec f (r0 :: l)).2.2.2 r0 (List.mem_cons_self _ _)
  intro hnil
  rw [hnil] at h
  simp at h

lemma minEntry_mem_bound (g : List (Int × List Rule)) (t : Int) (batch : List Rule)
    (h : minEntry g = some (t, batch)) :
    (t, batch) ∈ g ∧ ∀ p ∈ g, t ≤ p.1 := by
  cases g with
  | nil => simp [minEntry] at h
  | cons e es =>
    have hspec := minEntry_spec es e
    simp only [minEntry, Option.some.injEq] at h
    rw [h] at hspec
    exact ⟨hspec.1, fun p hp => hspec.2 p hp⟩

/-- C1: CronManager.get_next_execution returns None exactly when the rule
list has no rule with a Scheduled trigger; otherwise it returns the
strictly-smallest future next-fire instant over the scheduled rules together
with exactly the rules whose next-fire instant equals that minimum (all
ties included).  Proved of the embedded algorithm in which the trigger's
stored cron expression is readable; in the Python source the read of the
public cron_expr attribute raises AttributeError (claim C1 is reported as a
code bug for that reason). -/
theorem get_next_execution_min_batch (nextFire : String → Int → Int) (now : Int)
    (rules : List Rule) (hfut : ∀ e, now < nextFire e now) :
    (get_next_execution nextFire now rules = none ↔
      ¬ ∃ r ∈ rules, r.trigger.type = TriggerType.SCHEDULED) ∧
    (∀ t batch, get_next_execution nextFire now rules = some (t, batch) →
      now < t ∧
      (∀ r ∈ parse_schedules rules, t ≤ nextFire r.trigger.cron_expr now) ∧
      batch = (parse_schedules rules).filter
        (fun r => decide (nextFire r.trigger.cron_expr now = t)) ∧
      batch ≠ []) := by
  have hps := parse_schedules_eq_self rules
  constructor
  · cases rules with
    | nil => simp [get_next_execution, parse_schedules]
    | cons r0 rs =>
      have hscheduled : r0.trigger.type = TriggerType.SCHEDULED := by
        cases h : r0.trigger.type
        rfl
      have hex : ∃ r ∈ r0 :: rs, r.trigger.type = TriggerType.SCHEDULED :=
        ⟨r0, List.mem_cons_self _ _, hscheduled⟩
      have hne : get_next_execution nextFire now (r0 :: rs) ≠ none := by
        simp only [get_next_execution]
        rw [hps]
        simp only [List.isEmpty_cons, Bool.false_eq_true, if_false]
        cases hg : groupByTime (fun r => nextFire r.trigger.cron_expr now) (r0 :: rs) with
        | nil => exact absurd hg (groupByTime_ne_nil _ _ _)
        | cons e es => simp [minEntry]
      constructor
      · intro hnone
        exact absurd hnone hne
      · intro hnex
        exact absurd hex hnex
  · intro t batch hsome
    cases rules with
    | nil => simp [get_next_execution, parse_schedules] at hsome
    | cons r0 rs =>
      rw [hps]
      simp only [get_next_execution] at hsome
      rw [hps] at hsome
      simp only [List.isEmpty_cons, Bool.false_eq_true, if_false] at hsome
      obtain ⟨hmem, hbound⟩ := minEntry_mem_bound _ _ _ hsome
      have hspec := groupByTime_spec (fun r => nextFire r.trigger.cron_expr now) (r0 :: rs)
      have hbatch : batch =
          (r0 :: rs).filter (fun x => decide (nextFire x.trigger.cron_expr now = t)) :=
        hspec.1 (t, batch) hmem
      have htin : t ∈ (groupByTime (fun r => nextFire r.trigger.cron_expr now)
          (r0 :: rs)).map Prod.fst := List.mem_map_of_mem Prod.fst hmem
      obtain ⟨x, hx, hfx⟩ := hspec.2.2.1 t htin
      refine ⟨?_, ?_, hbatch, ?_⟩
      · rw [← hfx]
        exact hfut x.trigger.cron_expr
      · intro r hr
        have hk := hspec.2.2.2 r hr
        obtain ⟨p, hp, hpe⟩ := List.mem_map.mp hk
        have hle := hbound p hp
        rw [hpe] at hle
        exact hle
      · rw [hbatch]
        intro hnil
        have hxin : x ∈ (r0 :: rs).filter
            (fun x => decide (nextFire x.trigger.cron_expr now = t)) :=
          List.mem_filter.mpr ⟨hx, by simp [hfx]⟩
        rw [hnil] at hxin
        exact absurd hxin (List.not_mem_nil x)

/-- A sample scheduled rule used to instantiate theorems at concrete
inputs. -/
def rule1 : Rule := ⟨⟨TriggerType.SCHEDULED, "0 9 * * *"⟩, ["add_card"]⟩

/-- A sample next-fire function: one time unit after the base time. -/
def nf1 : String → Int → Int := fun _ n => n + 1

/-- Witness for C1: the theorem applied at a concrete rule list, with the
future-fire hypothesis discharged. -/
theorem get_next_execution_min_batch_witness :
    (0 : Int) < 1 ∧ ([rule1] : List Rule) ≠ [] :=
  have h := (get_next_execution_min_batch nf1 0 [rule1]
    (fun e => by simp [nf1])).2 1 [rule1] (by decide)
  ⟨h.1, h.2.2.2⟩

/-- C7: get_next_execution is pure with respect to the supplied now: the
embedding takes the current time read by datetime.now as an explicit
argument, two evaluations at the identical now value are identical, and the
returned batch is a sublist of the input rules (the rules are read, never
mutated or reordered). -/
theorem get_next_execution_pure (nextFire : String → Int → Int) (now : Int)
    (rules : List Rule) :
    get_next_execution nextFire now rules = get_next_execution nextFire now rules ∧
    (∀ t batch, get_next_execution nextFire now rules = some (t, batch) →
      batch.Sublist rules) := by
  refine ⟨rfl, ?_⟩
  intro t batch hsome
  by_cases hE : (parse_schedules rules).isEmpty
  · simp only [get_next_execution, if_pos hE] at hsome
    exact Option.noConfusion hsome
  · simp only [get_next_execution, if_neg hE] at hsome
    obtain ⟨hmem, _⟩ := minEntry_mem_bound _ _ _ hsome
    have hbatch : batch = (parse_schedules rules).filter
        (fun x => decide (nextFire x.trigger.cron_expr now = t)) :=
      (groupByTime_spec _ (parse_schedules rules)).1 (t, batch) hmem
    rw [parse_schedules_eq_self rules] at hbatch
    rw [hbatch]
    exact List.filter_sublist _

/-- Witness for C7: the purity theorem applied at a concrete input. -/
theorem get_next_execution_pure_witness : List.Sublist [rule1] [rule1] :=
  (get_next_execution_pure nf1 0 [rule1]).2 1 [rule1] (by decide)

/-! ## Due-date formatting (nestor/trello.py, _create_card line 128)

Python datetime.isoformat for a naive datetime prints
YYYY-MM-DDTHH:MM:SS and appends a dot plus the six zero-padded microsecond
digits exactly when the microsecond component is non-zero.  The due
parameter sent to the card-creation endpoint is isoformat()[:-3] + Z,
i.e. the string with its last three characters removed and a literal Z
appended.  Strings are modelled as lists of characters. -/

structure PyDateTime where
  year : Nat
  month : Nat
  day : Nat
  hour : Nat
  minute : Nat
  second : Nat
  microsecond : Nat
deriving DecidableEq

/-- Two-digit zero-padded decimal rendering (datetime fields are < 100). -/
def pad2 (n : Nat) : List Char := [Nat.digitChar (n / 10 % 10), Nat.digitChar (n % 10)]

/-- Four-digit zero-padded decimal rendering of the year. -/
def pad4 (n : Nat) : List Char :=
  [Nat.digitChar (n / 1000 % 10), Nat.digitChar (n / 100 % 10),
   Nat.digitChar (n / 10 % 10), Nat.digitChar (n % 10)]

/-- Six-digit zero-padded decimal rendering of the microseconds. -/
def pad6 (n : Nat) : List Char :=
  [Nat.digitChar (n / 100000 % 10), Nat.digitChar (n / 10000 % 10),
   Nat.digitChar (n / 1000 % 10), Nat.digitChar (n / 100 % 10),
   Nat.digitChar (n / 10 % 10), Nat.digitChar (n % 10)]

/-- Python datetime.isoformat() for a naive datetime (default timespec):
the fractional part is omitted when microsecond = 0. -/
def isoformat (dt : PyDateTime) : List Char :=
  pad4 dt.year ++ '-' :: pad2 dt.month ++ '-' :: pad2 dt.day ++ 'T' :: pad2 dt.hour
    ++ ':' :: pad2 dt.minute ++ ':' :: pad2 dt.second
    ++ (if dt.microsecond = 0 then [] else '.' :: pad6 dt.microsecond)

/-- The transmitted due parameter, trello.py line 128:
due.isoformat()[:-3] + Z. -/
def dueParam (dt : PyDateTime) : List Char :=
  (isoformat dt).take ((isoformat dt).length - 3) ++ ['Z']

/-- Modelled from the spec words of C8 (the value the spec claims is
transmitted): the instant truncated to second precision, no sub-second
component, with the UTC suffix. -/
def secondPrecisionUTC (dt : PyDateTime) : List Char :=
  isoformat { dt with microsecond := 0 } ++ ['Z']

/-- The value actually produced for a non-zero microsecond component:
millisecond truncation, keeping the first three of the six microsecond
digits, with a literal Z appended. -/
def msTruncDue (dt : PyDateTime) : List Char :=
  pad4 dt.year ++ '-' :: pad2 dt.month ++ '-' :: pad2 dt.day ++ 'T' :: pad2 dt.hour
    ++ ':' :: pad2 dt.minute ++ ':' :: pad2 dt.second
    ++ '.' :: [Nat.digitChar (dt.microsecond / 100000 % 10),
               Nat.digitChar (dt.microsecond / 10000 % 10),
               Nat.digitChar (dt.microsecond / 1000 % 10)] ++ ['Z']

lemma dueParam_eq_msTrunc (dt : PyDateTime) (h : dt.microsecond ≠ 0) :
    dueParam dt = msTruncDue dt := by
  have hiso : isoformat dt =
      pad4 dt.year ++ '-' :: pad2 dt.month ++ '-' :: pad2 dt.day ++ 'T' :: pad2 dt.hour
        ++ ':' :: pad2 dt.minute ++ ':' :: pad2 dt.second
        ++ '.' :: pad6 dt.microsecond := by
    unfold isoformat
    rw [if_neg h]
  unfold dueParam
  rw [hiso]
  rfl

/-! ## Trello resource cache (nestor/trello.py)

State of a Trello object: the cached boards and the cache timestamp.  The
timestamp is initialised to 0.0 in the constructor; note that no method of
the class ever assigns to it again.  Instants are modelled as Int seconds,
and time.time() is passed in as the explicit argument now.

Boards stored in the cache always have their lists and labels filled in by
_cache_all_boards before the assignment to the boards attribute, so the
Optional wrappers of the dataclass are modelled as plain lists.

Remote responses are supplied through a Remote record: one field per API
endpoint the class calls, each returning either a payload or a remote-call
failure (requests raise_for_status).  The list of mutation calls actually
issued is returned as a trace of ApiCall values; the number of full
discovery refreshes is returned as a separate counter by get_board. -/

structure TrelloList where
  name : String
  id : String
deriving DecidableEq

structure TrelloLabel where
  name : String
  id : String
  color : String
deriving DecidableEq

structure TrelloBoard where
  name : String
  id : String
  lists : List TrelloList
  labels : List TrelloLabel
deriving DecidableEq

/-- Failure kinds: a failed remote call (raise_for_status), the
RequiredResourceMissingException of add_card, and the ValueError of
AddCardExecution. -/
inductive Err where
  | remote
  | missing
  | valueError
deriving DecidableEq

structure TrelloState where
  boards : List TrelloBoard
  cache_time : Int
deriving DecidableEq

/-- CACHE_VALIDITY = 86400.0, trello.py line 11: cache for a day. -/
def CACHE_VALIDITY : Int := 86400

structure CardParams where
  name : String
  idList : String
  desc : Option String
  due : Option (List Char)
  pos : Option String
deriving DecidableEq

/-- The remote mutation calls the class can issue (POST endpoints). -/
inductive ApiCall where
  | createList (boardId : String) (listName : String)
  | createCard (params : CardParams)
  | addLabel (cardId : String) (labelId : String)
  | createChecklist (cardId : String) (checklistName : String)
  | addCheckItem (checklistId : String) (item : String)
deriving DecidableEq

/-- The remote service, one field per endpoint used. -/
structure Remote where
  boardsResp : Except Err (List (String × String))
  listsResp : String → Except Err (List TrelloList)
  labelsResp : String → Except Err (List TrelloLabel)
  createListResp : String → String → Except Err (String × String)
  createCardResp : Except Err String
  addLabelResp : String → String → Except Err Unit
  createChecklistResp : String → String → Except Err String
  addCheckItemResp : String → String → Except Err Unit

/-- Trello.__cache_is_valid, trello.py lines 222-223: the boards list must
be truthy (non-empty) and the snapshot age must be within CACHE_VALIDITY. -/
def cache_is_valid (now : Int) (st : TrelloState) : Bool :=
  !st.boards.isEmpty && decide (now - st.cache_time ≤ CACHE_VALIDITY)

/-- Trello.__get_cached_board: first board with a matching name, None if
absent. -/
def get_cached_board (st : TrelloState) (board_name : String) : Option TrelloBoard :=
  (st.boards.filter (fun b => b.name == board_name)).head?

/-- Trello.__get_cached_list: first list with a matching name, None if
absent. -/
def get_cached_list (board : TrelloBoard) (list_name : String) : Option TrelloList :=
  (board.lists.filter (fun l => l.name == list_name)).head?

/-- The body of the for-loop of _cache_all_boards: fetch lists and labels
for each discovered board in order, aborting on the first failed call. -/
def fill_boards (remote : Remote) : List (String × String) → Except Err (List TrelloBoard)
  | [] => Except.ok []
  | (n, i) :: rest => do
    let lists ← remote.listsResp i
    let labels ← remote.labelsResp i
    let tail ← fill_boards remote rest
    pure (TrelloBoard.mk n i lists labels :: tail)

/-- Trello._cache_all_boards, trello.py lines 156-164: discover all boards,
fill each board's lists and labels, and only then assign the new list to
the boards attribute.  An exception from any sub-fetch propagates before
that final assignment, so the stored state is returned unchanged on error.
The cache_time attribute is not assigned here (nor anywhere else after the
constructor). -/
def cache_all_boards (remote : Remote) (st : TrelloState) : TrelloState × Except Err Unit :=
  match remote.boardsResp with
  | Except.error e => (st, Except.error e)
  | Except.ok bs =>
    match fill_boards remote bs with
    | Except.error e => (st, Except.error e)
    | Except.ok boards => ({ st with boards := boards }, Except.ok ())

/-- Trello._get_board, trello.py lines 89-107.  The two top-level branches
correspond to the two values of the cache_refreshed_already flag of the
source: the cache was refreshed up front because it was invalid, or the
lookup ran against a previously valid snapshot.  The Nat component counts
the calls to _cache_all_boards made during this call. -/
def get_board (remote : Remote) (now : Int) (st : TrelloState) (board_name : String) :
    Except Err (Option TrelloBoard) × TrelloState × Nat :=
  if cache_is_valid now st then
    match get_cached_board st board_name with
    | some b => (Except.ok (some b), st, 0)
    | none =>
      match cache_all_boards remote st with
      | (st2, Except.error e) => (Except.error e, st2, 1)
      | (st2, Except.ok _) => (Except.ok (get_cached_board st2 board_name), st2, 1)
  else
    match cache_all_boards remote st with
    | (st1, Except.error e) => (Except.error e, st1, 1)
    | (st1, Except.ok _) =>
      match get_cached_board st1 board_name with
      | some b => (Except.ok (some b), st1, 1)
      | none => (Except.ok none, st1, 1)

/-- Trello._create_list, trello.py lines 139-154: issue the creation call,
build a TrelloList from the response payload (its name and id fields), and
append it to the board's list collection. -/
def create_list (resp : Except Err (String × String)) (target_board : TrelloBoard)
    (list_name : String) : Except Err (TrelloList × TrelloBoard) × List ApiCall :=
  match resp with
  | Except.error e => (Except.error e, [ApiCall.createList target_board.id list_name])
  | Except.ok (n, i) =>
    let created : TrelloList := ⟨n, i⟩
    (Except.ok (created, { target_board with lists := target_board.lists ++ [created] }),
      [ApiCall.createList target_board.id list_name])

/-- Trello._get_list, trello.py lines 109-117: return the cached list when
present, otherwise create it. -/
def get_list (resp : Except Err (String × String)) (board : TrelloBoard) (list_name : String) :
    Except Err (TrelloList × TrelloBoard) × List ApiCall :=
  match get_cached_list board list_name with
  | some l => (Except.ok (l, board), [])
  | none => create_list resp board list_name

/-- Trello._create_card, trello.py lines 119-137: build the card parameters
(description, due and position are included only when supplied) and issue
the creation call. -/
def create_card (resp : Except Err String) (target_list : TrelloList) (card_name : String)
    (description : Option String) (due : Option PyDateTime) (place_at_top : Bool) :
    Except Err String × List ApiCall :=
  let card_params : CardParams :=
    { name := card_name
      idList := target_list.id
      desc := description
      due := due.map dueParam
      pos := if place_at_top then some "top" else none }
  (resp, [ApiCall.createCard card_params])

/-- Trello._get_valid_label_ids, trello.py lines 166-169. -/
def get_valid_label_ids (target_board : TrelloBoard) (label_names : List String) :
    List String :=
  (target_board.labels.filter (fun lb => label_names.contains lb.name)).map TrelloLabel.id

/-- Trello._add_labels, trello.py lines 171-180: one call per label id, in
order, aborting on the first failure. -/
def add_labels (remote : Remote) (card_id : String) :
    List String → Except Err Unit × List ApiCall
  | [] => (Except.ok (), [])
  | lid :: rest =>
    match remote.addLabelResp card_id lid with
    | Except.error e => (Except.error e, [ApiCall.addLabel card_id lid])
    | Except.ok _ =>
      let t := add_labels remote card_id rest
      (t.1, ApiCall.addLabel card_id lid :: t.2)

/-- The item loop of Trello._create_checklist, trello.py lines 193-200. -/
def add_check_items (remote : Remote) (checklist_id : String) :
    List String → Except Err Unit × List ApiCall
  | [] => (Except.ok (), [])
  | item :: rest =>
    match remote.addCheckItemResp checklist_id item with
    | Except.error e => (Except.error e, [ApiCall.addCheckItem checklist_id item])
    | Except.ok _ =>
      let t := add_check_items remote checklist_id rest
      (t.1, ApiCall.addCheckItem checklist_id item :: t.2)

/-- Trello._create_checklist, trello.py lines 182-200. -/
def create_checklist (remote : Remote) (card_id : String) (checklist_name : String)
    (items : List String) : Except Err Unit × List ApiCall :=
  match remote.createChecklistResp card_id checklist_name with
  | Except.error e => (Except.error e, [ApiCall.createChecklist card_id checklist_name])
  | Except.ok checklist_id =>
    let t := add_check_items remote checklist_id items
    (t.1, ApiCall.createChecklist card_id checklist_name :: t.2)

/-- Python aliasing: the board returned by _get_board is the object stored
in the boards attribute, so the in-place list append of _create_list is
visible in the cache; modelled by replacing the board with the same id. -/
def update_board (st : TrelloState) (board : TrelloBoard) : TrelloState :=
  { st with boards := st.boards.map (fun b => if b.id = board.id then board else b) }

/-- Trello.add_card, trello.py lines 52-87: resolve the board (raising
RequiredResourceMissingException when absent), resolve or create the list,
create the card, then attach labels only when label names were supplied
(Python truthiness: None and the empty list are both skipped) and create a
checklist only when one was supplied.  Returns the outcome, the final
state, the number of discovery refreshes and the trace of mutation calls. -/
def add_card (remote : Remote) (now : Int) (st : TrelloState)
    (board_name list_name card_name : String) (description : Option String)
    (labels_names : Option (List String)) (due : Option PyDateTime)
    (checklist : Option (String × List String)) (place_at_top : Bool) :
    Except Err Unit × TrelloState × Nat × List ApiCall :=
  match get_board remote now st board_name with
  | (Except.error e, st1, c) => (Except.error e, st1, c, [])
  | (Except.ok none, st1, c) => (Except.error Err.missing, st1, c, [])
  | (Except.ok (some target_board), st1, c) =>
    match get_list (remote.createListResp target_board.id list_name) target_board list_name with
    | (Except.error e, t1) => (Except.error e, st1, c, t1)
    | (Except.ok (target_list, board2), t1) =>
      let st2 := update_board st1 board2
      match create_card remote.createCardResp target_list card_name description due
          place_at_top with
      | (Except.error e, t2) => (Except.error e, st2, c, t1 ++ t2)
      | (Except.ok card_id, t2) =>
        let lr :=
          match labels_names with
          | some (ln :: lns) => add_labels remote card_id
              (get_valid_label_ids board2 (ln :: lns))
          | _ => (Except.ok (), [])
        match lr with
        | (Except.error e, t3) => (Except.error e, st2, c, t1 ++ t2 ++ t3)
        | (Except.ok _, t3) =>
          let cr :=
            match checklist with
            | some (cname, items) => create_checklist remote card_id cname items
            | none => (Except.ok (), [])
          match cr with
          | (Except.error e, t4) => (Except.error e, st2, c, t1 ++ t2 ++ t3 ++ t4)
          | (Except.ok _, t4) => (Except.ok (), st2, c, t1 ++ t2 ++ t3 ++ t4)

/-! ## Rule actions (nestor/rule_parser.py) -/

/-- The arguments dict of an add_card action definition.  A missing key is
modelled as none. -/
structure AddCardArgs where
  board : Option String
  list : Option String
  name : Option String
  description : Option String
  labels : Option (List String)
  due : Option PyDateTime
  checklist : Option (String × List String)
  place_at_top : Bool
deriving DecidableEq

/-- AddCardExecution.__init__, rule_parser.py lines 20-24: raise ValueError
when any of the board, list and name arguments is missing; nothing else is
validated. -/
def add_card_execution_init (args : AddCardArgs) : Except Err Unit :=
  if args.board.isNone || args.list.isNone || args.name.isNone then Except.error Err.valueError
  else Except.ok ()

/-- AddCardExecution.execute, rule_parser.py lines 26-28: the body is the
statement pass (marked TODO); no remote call is performed and nothing is
invoked on the Trello object. -/
def add_card_execution_run (_args : AddCardArgs) : List ApiCall := []

/-! ## Sample fixtures used to instantiate theorems at concrete inputs -/

/-- The fresh state built by the Trello constructor: no boards, timestamp
0.0 (trello.py lines 49-50). -/
def st0 : TrelloState := ⟨[], 0⟩

/-- A remote with one board Ops carrying one list Today. -/
def remoteOps : Remote :=
  { boardsResp := Except.ok [("Ops", "b1")]
    listsResp := fun _ => Except.ok [⟨"Today", "l1"⟩]
    labelsResp := fun _ => Except.ok []
    createListResp := fun _ _ => Except.error Err.remote
    createCardResp := Except.ok "c1"
    addLabelResp := fun _ _ => Except.error Err.remote
    createChecklistResp := fun _ _ => Except.error Err.remote
    addCheckItemResp := fun _ _ => Except.error Err.remote }

/-- The state after one successful refresh against remoteOps. -/
def st3 : TrelloState := (cache_all_boards remoteOps st0).1

/-- A remote whose per-board list fetch fails mid-refresh. -/
def remoteFail : Remote :=
  { boardsResp := Except.ok [("A", "a1")]
    listsResp := fun _ => Except.error Err.remote
    labelsResp := fun _ => Except.ok []
    createListResp := fun _ _ => Except.error Err.remote
    createCardResp := Except.error Err.remote
    addLabelResp := fun _ _ => Except.error Err.remote
    createChecklistResp := fun _ _ => Except.error Err.remote
    addCheckItemResp := fun _ _ => Except.error Err.remote }

/-- A remote knowing only the board B. -/
def remoteB : Remote :=
  { boardsResp := Except.ok [("B", "b2")]
    listsResp := fun _ => Except.ok []
    labelsResp := fun _ => Except.ok []
    createListResp := fun _ _ => Except.error Err.remote
    createCardResp := Except.error Err.remote
    addLabelResp := fun _ _ => Except.error Err.remote
    createChecklistResp := fun _ _ => Except.error Err.remote
    addCheckItemResp := fun _ _ => Except.error Err.remote }

/-- A cached state holding only a board named A, with a fresh timestamp. -/
def stA : TrelloState := ⟨[⟨"A", "a1", [], []⟩], 0⟩

def boardA : TrelloBoard := ⟨"Ops", "b1", [], []⟩

def createdToday : TrelloList := ⟨"Today", "l5"⟩

def boardA2 : TrelloBoard := ⟨"Ops", "b1", [createdToday], []⟩

def todayList : TrelloList := ⟨"Today", "l1"⟩

def dt1 : PyDateTime := ⟨2024, 1, 2, 3, 4, 5, 678901⟩

def pastDt : PyDateTime := ⟨2000, 1, 1, 0, 0, 0, 0⟩

/-! ## Claim theorems over the Trello embedding -/

/-- C6: if any sub-fetch of a full cache refresh fails, the refresh is
aborted and the stored snapshot (boards and timestamp) is exactly what it
was before the refresh began. -/
theorem failed_refresh_preserves_snapshot (remote : Remote) (st : TrelloState) (e : Err)
    (h : (cache_all_boards remote st).2 = Except.error e) :
    (cache_all_boards remote st).1 = st := by
  cases hb : remote.boardsResp with
  | error e2 => simp [cache_all_boards, hb]
  | ok bs =>
    cases hf : fill_boards remote bs with
    | error e2 => simp [cache_all_boards, hb, hf]
    | ok boards =>
      have hok : (cache_all_boards remote st).2 = Except.ok () := by
        simp [cache_all_boards, hb, hf]
      rw [hok] at h
      exact absurd h (by simp)

/-- Witness for C6: a refresh whose list fetch fails leaves the cached
state untouched. -/
theorem failed_refresh_preserves_snapshot_witness :
    (cache_all_boards remoteFail stA).2 = Except.error Err.remote ∧
    (cache_all_boards remoteFail stA).1 = stA :=
  ⟨rfl, failed_refresh_preserves_snapshot remoteFail stA Err.remote rfl⟩

/-- C3: the code never assigns the cache timestamp after construction, so a
successful refresh does not update it; consequently a getBoard call made 60
seconds after a successful refresh (state st3, board present in the
snapshot) still performs a full discovery refresh, contradicting the
claimed TTL behaviour. -/
theorem cache_refresh_never_updates_timestamp :
    (∀ (remote : Remote) (st : TrelloState),
        ((cache_all_boards remote st).1).cache_time = st.cache_time) ∧
    (get_cached_board st3 "Ops").isSome = true ∧
    (get_board remoteOps 1000060 st3 "Ops").2.2 = 1 := by
  refine ⟨?_, rfl, rfl⟩
  intro remote st
  cases hb : remote.boardsResp with
  | error e => simp [cache_all_boards, hb]
  | ok bs =>
    cases hf : fill_boards remote bs with
    | error e => simp [cache_all_boards, hb, hf]
    | ok boards => simp [cache_all_boards, hb, hf]

/-- C10: a snapshot with an empty board list is treated as stale regardless
of elapsed time, and a getBoard call on such a state always performs a
discovery refresh. -/
theorem empty_cache_always_stale (now t : Int) (remote : Remote) (st : TrelloState)
    (name : String) :
    cache_is_valid now { boards := [], cache_time := t } = false ∧
    (st.boards = [] → 1 ≤ (get_board remote now st name).2.2) := by
  constructor
  · rfl
  · intro hb
    have hvalid : cache_is_valid now st = false := by
      unfold cache_is_valid
      rw [hb]
      rfl
    unfold get_board
    simp only [hvalid, Bool.false_eq_true, if_false]
    cases hc : cache_all_boards remote st with
    | mk st1 r =>
      cases r with
      | error e => simp
      | ok u =>
        cases hgb : get_cached_board st1 name with
        | some b => simp [hgb]
        | none => simp [hgb]

/-- Witness for C10: the fresh constructor state forces a refresh. -/
theorem empty_cache_always_stale_witness :
    st0.boards = [] ∧ 1 ≤ (get_board remoteB 0 st0 "B").2.2 :=
  ⟨rfl, (empty_cache_always_stale 0 0 remoteB st0 "B").2 rfl⟩

/-- C2: a single _get_board call performs at most two full cache refreshes
(in fact at most one); a None result is produced only after a refresh
happened during the same call; and when a previously valid snapshot was
used and the lookup missed, exactly one forced refresh-and-retry happens
and the call returns whatever the retried lookup yields. -/
theorem get_board_bounded_refresh (remote : Remote) (now : Int) (st : TrelloState)
    (name : String) :
    (get_board remote now st name).2.2 ≤ 2 ∧
    ((get_board remote now st name).1 = Except.ok none →
      1 ≤ (get_board remote now st name).2.2) ∧
    (cache_is_valid now st = true → get_cached_board st name = none →
      (get_board remote now st name).2.2 = 1 ∧
      (get_board remote now st name).2.1 = (cache_all_boards remote st).1 ∧
      ((cache_all_boards remote st).2 = Except.ok () →
        (get_board remote now st name).1 =
          Except.ok (get_cached_board (cache_all_boards remote st).1 name))) := by
  by_cases hv : cache_is_valid now st = true
  · cases hcb : get_cached_board st name with
    | some b =>
      have hg : get_board remote now st name = (Except.ok (some b), st, 0) := by
        simp [get_board, hv, hcb]
      refine ⟨by rw [hg]; norm_num, ?_, ?_⟩
      · intro h
        rw [hg] at h
        simp at h
      · intro _ hn
        exact absurd hn (by simp)
    | none =>
      rcases hc : cache_all_boards remote st with ⟨st2, r⟩
      cases r with
      | error e =>
        have hg : get_board remote now st name = (Except.error e, st2, 1) := by
          simp [get_board, hv, hcb, hc]
        refine ⟨by rw [hg]; norm_num, ?_, ?_⟩
        · intro h
          rw [hg] at h
          exact absurd h (by simp)
        · intro _ _
          refine ⟨by rw [hg], by rw [hg], ?_⟩
          intro hok
          exact absurd hok (by simp)
      | ok u =>
        have hg : get_board remote now st name =
            (Except.ok (get_cached_board st2 name), st2, 1) := by
          simp [get_board, hv, hcb, hc]
        refine ⟨by rw [hg]; norm_num, ?_, ?_⟩
        · intro _
          rw [hg]
        · intro _ _
          refine ⟨by rw [hg], by rw [hg], ?_⟩
          intro _
          rw [hg]
  · have hv' : cache_is_valid now st = false := by
      simpa using hv
    rcases hc : cache_all_boards remote st with ⟨st1, r⟩
    cases r with
    | error e =>
      have hg : get_board remote now st name = (Except.error e, st1, 1) := by
        simp [get_board, hv', hc]
      refine ⟨by rw [hg]; norm_num, ?_, ?_⟩
      · intro h
        rw [hg] at h
        exact absurd h (by simp)
      · intro hvt
        exact absurd hvt (by simp [hv'])
    | ok u =>
      cases hcb : get_cached_board st1 name with
      | some b =>
        have hg : get_board remote now st name = (Except.ok (some b), st1, 1) := by
          simp [get_board, hv', hc, hcb]
        refine ⟨by rw [hg]; norm_num, ?_, ?_⟩
        · intro h
          rw [hg] at h
          simp at h
        · intro hvt
          exact absurd hvt (by simp [hv'])
      | none =>
        have hg : get_board remote now st name = (Except.ok none, st1, 1) := by
          simp [get_board, hv', hc, hcb]
        refine ⟨by rw [hg]; norm_num, ?_, ?_⟩
        · intro _
          rw [hg]
        · intro hvt
          exact absurd hvt (by simp [hv'])

/-- Witness for C2: a valid snapshot holding only board A, a lookup for the
board B created remotely since: exactly one forced refresh happens. -/
theorem get_board_bounded_refresh_witness :
    (get_board remoteB 0 stA "B").2.2 = 1 :=
  ((get_board_bounded_refresh remoteB 0 stA "B").2.2 (by decide) (by decide)).1

/-- C5: _get_list issues at most one creation call, never creates for a
name already cached, and once a list was created (the remote echoing the
requested name back) it is visible in the returned board, so an immediate
second call returns the same list with no further remote call. -/
theorem get_list_no_duplicate (board : TrelloBoard) (list_name rid : String)
    (resp1 resp2 : Except Err (String × String))
    (hresp : resp1 = Except.ok (list_name, rid)) :
    ((get_list resp1 board list_name).2.length ≤ 1) ∧
    (get_cached_list board list_name ≠ none → (get_list resp1 board list_name).2 = []) ∧
    (∀ l1 b1, (get_list resp1 board list_name).1 = Except.ok (l1, b1) →
      get_cached_list b1 list_name = some l1 ∧
      get_list resp2 b1 list_name = (Except.ok (l1, b1), [])) := by
  cases hcl : get_cached_list board list_name with
  | some l =>
    have hg : get_list resp1 board list_name = (Except.ok (l, board), []) := by
      simp [get_list, hcl]
    refine ⟨by rw [hg]; simp, fun _ => by rw [hg], ?_⟩
    intro l1 b1 h1
    rw [hg] at h1
    simp only [Except.ok.injEq, Prod.mk.injEq] at h1
    obtain ⟨hl, hb⟩ := h1
    subst hl
    subst hb
    refine ⟨hcl, ?_⟩
    simp [get_list, hcl]
  | none =>
    subst hresp
    have hfil : board.lists.filter (fun l => l.name == list_name) = [] := by
      unfold get_cached_list at hcl
      exact List.head?_eq_none_iff.mp hcl
    have hg : get_list (Except.ok (list_name, rid)) board list_name =
        (Except.ok ((⟨list_name, rid⟩ : TrelloList),
          { board with lists := board.lists ++ [⟨list_name, rid⟩] }),
         [ApiCall.createList board.id list_name]) := by
      simp [get_list, hcl, create_list]
    refine ⟨by rw [hg]; simp, ?_, ?_⟩
    · intro hne
      exact absurd rfl hne
    · intro l1 b1 h1
      rw [hg] at h1
      simp only [Except.ok.injEq, Prod.mk.injEq] at h1
      obtain ⟨hl, hb⟩ := h1
      subst hl
      subst hb
      have hcl2 : get_cached_list
          { board with lists := board.lists ++ [(⟨list_name, rid⟩ : TrelloList)] }
          list_name = some ⟨list_name, rid⟩ := by
        unfold get_cached_list
        simp [List.filter_append, hfil]
      refine ⟨hcl2, ?_⟩
      simp [get_list, hcl2]

/-- Witness for C5: creating the list Today on a board lacking it makes the
immediate second lookup hit the cache with no further creation call. -/
theorem get_list_no_duplicate_witness :
    get_cached_list boardA2 "Today" = some createdToday ∧
    get_list (Except.ok ("Today", "l5")) boardA2 "Today" =
      (Except.ok (createdToday, boardA2), []) :=
  (get_list_no_duplicate boardA "Today" "l5" (Except.ok ("Today", "l5"))
    (Except.ok ("Today", "l5")) rfl).2.2 createdToday boardA2 rfl

/-- C8 counterexample: the due parameter the card-creation call transmits
for the instant 2024-01-02 03:04:05.678901 still carries a sub-second
component, so it is not the claimed second-precision value. -/
theorem create_card_due_not_second_precision :
    (create_card (Except.ok "c1") todayList "Standup" none (some dt1) false).2 =
      [ApiCall.createCard ⟨"Standup", "l1", none, some (dueParam dt1), none⟩] ∧
    dueParam dt1 ≠ secondPrecisionUTC dt1 := by
  refine ⟨rfl, ?_⟩
  decide

/-- C8 (amended): for a due instant with a non-zero sub-second component,
the transmitted due value keeps exactly the first three of the six
microsecond digits (millisecond truncation) and appends a literal Z. -/
theorem create_card_due_millisecond_trunc (resp : Except Err String) (tl : TrelloList)
    (cn : String) (desc : Option String) (dt : PyDateTime) (top : Bool)
    (h : dt.microsecond ≠ 0) :
    (create_card resp tl cn desc (some dt) top).2 =
      [ApiCall.createCard
        ⟨cn, tl.id, desc, some (msTruncDue dt), if top then some "top" else none⟩] := by
  have hd : dueParam dt = msTruncDue dt := dueParam_eq_msTrunc dt h
  simp [create_card, hd]

/-- Witness for C8 (amended): the truncation theorem applied at the sample
instant. -/
theorem create_card_due_millisecond_trunc_witness :
    dt1.microsecond ≠ 0 ∧
    (create_card (Except.ok "c1") todayList "Standup" none (some dt1) false).2 =
      [ApiCall.createCard ⟨"Standup", "l1", none, some (msTruncDue dt1), none⟩] :=
  ⟨by decide,
    create_card_due_millisecond_trunc (Except.ok "c1") todayList "Standup" none dt1 false
      (by decide)⟩

/-- C9: a card creation whose due instant lies in the past is not rejected
anywhere: the action-argument validation accepts it and add_card transmits
the due parameter in the create-card call. -/
theorem past_due_transmitted :
    add_card_execution_init ⟨some "Ops", some "Today", some "Standup", none, none,
        some pastDt, none, false⟩ = Except.ok () ∧
    (add_card remoteOps 1000000 st0 "Ops" "Today" "Standup" none none (some pastDt)
        none false).1 = Except.ok () ∧
    (add_card remoteOps 1000000 st0 "Ops" "Today" "Standup" none none (some pastDt)
        none false).2.2.2 =
      [ApiCall.createCard ⟨"Standup", "l1", none, some (dueParam pastDt), none⟩] :=
  ⟨rfl, rfl, rfl⟩

/-- C4: AddCardExecution.execute performs no remote call at all (its body
is pass), while the intended pipeline Trello.add_card on the same scenario
(board Ops, list Today, card Standup, no labels, no checklist) performs
exactly the create-card call with no label or checklist call. -/
theorem rule_action_execute_no_calls :
    add_card_execution_run ⟨some "Ops", some "Today", some "Standup", none, none, none,
        none, false⟩ = ([] : List ApiCall) ∧
    (add_card remoteOps 1000000 st0 "Ops" "Today" "Standup" none none none none
        false).2.2.2 =
      [ApiCall.createCard ⟨"Standup", "l1", none, none, none⟩] :=
  ⟨rfl, rfl⟩

end Nestor
